import Mathlib

/-!
# Shallow embedding of the Telegram expense bot core (src/main.py)

This file embeds the two core subsystems of the bot:

* the multi-step intake state machine (`process_mode`, `process_amount`,
  `process_category`, `process_person`, `process_date`, `process_list`),
* the settlement engine (`close_month`) and the retention commands
  (`clear_all`, `cleanup_old`),

and proves the spec's claims about them.

Modelling conventions:

* Python `float` amounts are modelled as exact rationals (`ℚ`); the parser
  `parseFloat` models `float(text)` on plain signed decimal literals, the
  only shape of amount the bot's prompts and the spec consider.
* Python `str.strip()` is `pyStrip`; `text.split(',')` is `splitComma`.
* `datetime.strptime(s, "%d/%m/%y")` is `validDate`, reproducing CPython's
  `_strptime` field regexes (`%d`: `3[01]|[12]\d|0[1-9]|[1-9]`,
  `%m`: `1[0-2]|0[1-9]|[1-9]`, `%y`: exactly two digits, whole string must
  be consumed) followed by the day-of-month range check performed by the
  `datetime` constructor (including the leap-year rule, with `%y` mapped to
  2000+y for y ≤ 68 and 1900+y otherwise).
* The sqlite store is a list of rows; `INSERT` appends, `DELETE ... WHERE
  date < ?` filters with sqlite's BINARY (byte-lexicographic) text
  comparison, modelled by `lexLt` on the character lists (the dates involved
  are ASCII, where byte order and character order agree).
* `datetime.now()` in `cleanup_old` is abstracted by passing the function
  `cutoffOf : Int → String` that renders `now - N days` in the stored
  encoding; the claims about `cleanup_old` do not depend on the clock.
-/

namespace GastosBot

/-- One row of the `expenses` table (the auto-assigned `id` column is
omitted: no claim mentions it, and the store keeps insertion order). -/
structure ExpenseRecord where
  amount : ℚ
  category : String
  person : String
  date : String
deriving Repr, DecidableEq

/-- The conversation states `MODE, AMOUNT, CATEGORY, PERSON, DATE, LIST =
range(6)`, plus the terminal `ConversationHandler.END`. -/
inductive ConvState where
  | MODE
  | AMOUNT
  | CATEGORY
  | PERSON
  | DATE
  | LIST
  | END
deriving Repr, DecidableEq

/-- The `context.user_data` dictionary: the partially collected record. -/
structure UserData where
  amount : Option ℚ
  category : Option String
  person : Option String
deriving Repr, DecidableEq

/-- `context.user_data.clear()` / a fresh session. -/
def emptyUD : UserData := ⟨none, none, none⟩

/-! ## String helpers modelling the Python primitives -/

/-- Numeric value of a decimal digit character. -/
def digitVal (c : Char) : Nat := c.toNat - 48

/-- Value of a list of decimal digit characters. -/
def natOfDigits (cs : List Char) : Nat :=
  cs.foldl (fun n c => n * 10 + digitVal c) 0

/-- Python `str.strip()`: remove leading and trailing whitespace. -/
def pyStrip (s : String) : String :=
  ⟨((s.data.dropWhile Char.isWhitespace).reverse.dropWhile Char.isWhitespace).reverse⟩

/-- Python `text.split(',')`: split on every comma, keeping empty pieces. -/
def splitComma : List Char → List (List Char)
  | [] => [[]]
  | ',' :: rest => [] :: splitComma rest
  | c :: rest =>
    match splitComma rest with
    | [] => [[c]]
    | g :: gs => (c :: g) :: gs

/-- `float(text)` on plain decimal literals: optional surrounding
whitespace, an optional sign, then digits with an optional fractional part
(at least one digit overall). Returns the exact rational value. -/
def parseFloat (s : String) : Option ℚ :=
  let cs := (pyStrip s).data
  let (sgn, body) : ℚ × List Char :=
    match cs with
    | '+' :: r => (1, r)
    | '-' :: r => (-1, r)
    | r => (1, r)
  let intPart := body.takeWhile Char.isDigit
  let rest := body.dropWhile Char.isDigit
  match rest with
  | [] => if intPart.isEmpty then none else some (sgn * natOfDigits intPart)
  | '.' :: frac =>
    if frac.all Char.isDigit ∧ ¬ (intPart.isEmpty ∧ frac.isEmpty) then
      some (sgn * ((natOfDigits intPart : ℚ) + (natOfDigits frac : ℚ) / 10 ^ frac.length))
    else none
  | _ => none

/-- `int(text)`: optional surrounding whitespace, optional sign, one or
more digits. -/
def parseInt (s : String) : Option Int :=
  let cs := (pyStrip s).data
  let (sgn, body) : Int × List Char :=
    match cs with
    | '+' :: r => (1, r)
    | '-' :: r => (-1, r)
    | r => (1, r)
  if ¬ body.isEmpty ∧ body.all Char.isDigit then
    some (sgn * natOfDigits body)
  else none

/-! ## Date validation (`datetime.strptime(s, "%d/%m/%y")`) -/

/-- Number of days in a month of a given (full) year, as enforced by the
`datetime` constructor. -/
def daysInMonth (m : Nat) (y : Nat) : Nat :=
  if m = 2 then
    if (y % 4 = 0 ∧ y % 100 ≠ 0) ∨ y % 400 = 0 then 29 else 28
  else if m = 4 ∨ m = 6 ∨ m = 9 ∨ m = 11 then 30 else 31

/-- Parse a day or month field (`%d` or `%m`): one or two digits, value
`1..maxVal`, with the regex's fallback from a two-digit to a one-digit
match. -/
def parseDM (cs : List Char) (maxVal : Nat) : Option (Nat × List Char) :=
  match cs with
  | c1 :: c2 :: rest =>
    if c1.isDigit ∧ c2.isDigit then
      let v := digitVal c1 * 10 + digitVal c2
      if 1 ≤ v ∧ v ≤ maxVal then some (v, rest)
      else if 1 ≤ digitVal c1 then some (digitVal c1, c2 :: rest)
      else none
    else if c1.isDigit ∧ 1 ≤ digitVal c1 then some (digitVal c1, c2 :: rest)
    else none
  | [c1] =>
    if c1.isDigit ∧ 1 ≤ digitVal c1 then some (digitVal c1, []) else none
  | [] => none

/-- Whether `datetime.strptime(s, "%d/%m/%y")` succeeds: day `/` month `/`
two-digit year, consuming the whole string, with the day in range for the
month of the mapped year. -/
def validDate (s : String) : Bool :=
  match parseDM s.data 31 with
  | none => false
  | some (d, rest) =>
    match rest with
    | '/' :: rest2 =>
      match parseDM rest2 12 with
      | none => false
      | some (m, rest3) =>
        match rest3 with
        | '/' :: y1 :: y2 :: [] =>
          if y1.isDigit ∧ y2.isDigit then
            let y := digitVal y1 * 10 + digitVal y2
            let fullY := if y ≤ 68 then 2000 + y else 1900 + y
            decide (d ≤ daysInMonth m fullY)
          else false
        | _ => false
    | _ => false

/-! ## Intake state machine handlers -/

/-- `process_mode`: `'1'`-prefixed input starts step-by-step, `'2'`-prefixed
starts bulk entry, anything else stays in `MODE`. -/
def process_mode (text : String) : ConvState :=
  let choice := (pyStrip text).data
  match choice with
  | '1' :: _ => ConvState.AMOUNT
  | '2' :: _ => ConvState.LIST
  | _ => ConvState.MODE

/-- `process_amount`: parse the message as a float; a parse failure or a
non-positive value re-prompts and stays in `AMOUNT` with `user_data`
untouched; otherwise record the amount and advance to `CATEGORY`. -/
def process_amount (text : String) (ud : UserData) : ConvState × UserData :=
  match parseFloat text with
  | none => (ConvState.AMOUNT, ud)
  | some amt =>
    if amt ≤ 0 then (ConvState.AMOUNT, ud)
    else (ConvState.CATEGORY, { ud with amount := some amt })

/-- `process_category`: strip the message; more than 30 characters
re-prompts and stays in `CATEGORY`; otherwise record it and advance. -/
def process_category (text : String) (ud : UserData) : ConvState × UserData :=
  let cat := pyStrip text
  if cat.length > 30 then (ConvState.CATEGORY, ud)
  else (ConvState.PERSON, { ud with category := some cat })

/-- `process_person`: strip the message; more than 20 characters re-prompts
and stays in `PERSON`; otherwise record it and advance. -/
def process_person (text : String) (ud : UserData) : ConvState × UserData :=
  let per := pyStrip text
  if per.length > 20 then (ConvState.PERSON, ud)
  else (ConvState.DATE, { ud with person := some per })

/-- `process_date`: strip the message; if it parses under `%d/%m/%y`,
insert the collected record and end the conversation, else stay in `DATE`.
The underscore branch is the `KeyError` path (a field missing from
`user_data`), which is unreachable after the earlier steps ran; the raised
exception leaves the store unchanged and the conversation in `DATE`. -/
def process_date (text : String) (ud : UserData) (store : List ExpenseRecord) :
    ConvState × List ExpenseRecord :=
  let date_str := pyStrip text
  if validDate date_str then
    match ud.amount, ud.category, ud.person with
    | some a, some c, some p => (ConvState.END, store ++ [⟨a, c, p, date_str⟩])
    | _, _, _ => (ConvState.DATE, store)
  else (ConvState.DATE, store)

/-- `process_list`: split the message on commas and strip each piece;
require exactly four pieces, a parsed positive amount and a valid date
(category and person are NOT length-checked here); any failure raises,
is caught, and stays in `LIST` with nothing inserted. -/
def process_list (text : String) (store : List ExpenseRecord) :
    ConvState × List ExpenseRecord :=
  let parts := (splitComma text.data).map (fun cs => pyStrip ⟨cs⟩)
  match parts with
  | [amount, category, person, date_str] =>
    match parseFloat amount with
    | none => (ConvState.LIST, store)
    | some amt =>
      if amt ≤ 0 then (ConvState.LIST, store)
      else if validDate date_str then
        (ConvState.END, store ++ [⟨amt, category, person, date_str⟩])
      else (ConvState.LIST, store)
  | _ => (ConvState.LIST, store)

/-- One dispatch of an inbound text message to the handler of the current
conversation state, as wired in `ConversationHandler`. `END` is terminal. -/
def step (st : ConvState) (text : String) (ud : UserData)
    (store : List ExpenseRecord) : ConvState × UserData × List ExpenseRecord :=
  match st with
  | ConvState.MODE => (process_mode text, ud, store)
  | ConvState.AMOUNT =>
    let (st', ud') := process_amount text ud
    (st', ud', store)
  | ConvState.CATEGORY =>
    let (st', ud') := process_category text ud
    (st', ud', store)
  | ConvState.PERSON =>
    let (st', ud') := process_person text ud
    (st', ud', store)
  | ConvState.DATE =>
    let (st', store') := process_date text ud store
    (st', ud, store')
  | ConvState.LIST =>
    let (st', store') := process_list text store
    (st', ud, store')
  | ConvState.END => (ConvState.END, ud, store)

/-- Feed a sequence of messages to the state machine. -/
def runMessages (msgs : List String)
    (cfg : ConvState × UserData × List ExpenseRecord) :
    ConvState × UserData × List ExpenseRecord :=
  msgs.foldl (fun c text => step c.1 text c.2.1 c.2.2) cfg

/-! ## Settlement engine (`close_month`) -/

/-- The distinct `person` values of the store, first occurrence first
(`df['person'].nunique()` counts them; `groupby('person')` groups by
them — pandas sorts group keys, but no claim depends on the order of the
balance lines, only on the person-to-balance mapping). -/
def distinctPersons : List ExpenseRecord → List String
  | [] => []
  | r :: rest => r.person :: (distinctPersons rest).filter (· ≠ r.person)

/-- `df.groupby('person')['amount'].sum()` for one person. -/
def personTotal (store : List ExpenseRecord) (p : String) : ℚ :=
  ((store.filter (fun r => r.person = p)).map ExpenseRecord.amount).sum

/-- The derived settlement report of `close_month`'s non-empty branch. -/
structure SettlementReport where
  total : ℚ
  participant_count : Nat
  per_capita : ℚ
  balances : List (String × ℚ)
deriving Repr, DecidableEq

/-- `close_month`: on an empty store reply "nothing registered" and stop
(`none`, zero render calls); otherwise compute the report and render the
chart once. The second component counts chart-render calls. -/
def close_month (store : List ExpenseRecord) : Option SettlementReport × Nat :=
  if store.isEmpty then (none, 0)
  else
    let total := (store.map ExpenseRecord.amount).sum
    let ps := distinctPersons store
    let per := total / (ps.length : ℚ)
    (some { total := total
            participant_count := ps.length
            per_capita := per
            balances := ps.map (fun p => (p, personTotal store p - per)) }, 1)

/-! ## Retention / maintenance -/

/-- Byte-lexicographic `<` on character lists: sqlite's BINARY text
comparison, restricted to the ASCII date strings the bot stores. -/
def lexLt : List Char → List Char → Bool
  | [], [] => false
  | [], _ :: _ => true
  | _ :: _, [] => false
  | a :: as, b :: bs => if a < b then true else if a = b then lexLt as bs else false

/-- `DELETE FROM expenses WHERE date < ?`: keep the rows whose date is not
lexicographically below the cutoff. -/
def cleanupDelete (cutoff : String) (store : List ExpenseRecord) :
    List ExpenseRecord :=
  store.filter (fun r => ¬ lexLt r.date.data cutoff.data)

/-- `clear_all`: `DELETE FROM expenses`. -/
def clear_all (_store : List ExpenseRecord) : List ExpenseRecord := []

/-- `cleanup_old`: parse `args[0]` with `int`; on a missing argument or a
parse failure the `except` branch reports the usage message (`true`) and
touches nothing; otherwise (any integer, bounds unchecked) delete the rows
below `cutoffOf dias`, the rendering of `now - dias days`. -/
def cleanup_old (args : List String) (cutoffOf : Int → String)
    (store : List ExpenseRecord) : List ExpenseRecord × Bool :=
  match args with
  | [] => (store, true)
  | a :: _ =>
    match parseInt a with
    | none => (store, true)
    | some dias => (cleanupDelete (cutoffOf dias) store, false)

/-! ## Invariants -/

/-- The part of the spec's record invariant that both intake paths enforce:
a positive amount and a date accepted by `%d/%m/%y`. (Bulk entry checks
nothing else, so this is the strongest property shared by all stored
rows.) -/
def RecordOk (r : ExpenseRecord) : Prop :=
  0 < r.amount ∧ validDate r.date = true

/-- What the step-by-step handlers guarantee about the partially collected
session fields: a recorded amount is positive, a recorded category is at
most 30 characters, a recorded person is at most 20. -/
def UDOk (ud : UserData) : Prop :=
  (∀ a, ud.amount = some a → 0 < a) ∧
  (∀ c, ud.category = some c → c.length ≤ 30) ∧
  (∀ p, ud.person = some p → p.length ≤ 20)

end GastosBot

namespace GastosBot

/-! ## Claim theorems -/

/-- C1: on the record set `[(100, "Food", "A", "01/01/24"),
(50, "Food", "B", "02/01/24")]` the settlement engine computes
`total = 150`, `participant_count = 2`, `per_capita = 75`, and balances
`A = 25` (owes) and `B = -25` (is owed). -/
theorem close_month_example :
    close_month [⟨100, "Food", "A", "01/01/24"⟩, ⟨50, "Food", "B", "02/01/24"⟩] =
      (some { total := 150, participant_count := 2, per_capita := 75,
              balances := [("A", 25), ("B", -25)] }, 1) := by
  have e1 : List.filter (fun x => !decide (x = "A")) ["B"] = ["B"] := by decide
  have e2 : List.filter (fun r : ExpenseRecord => decide (r.person = "A"))
      [⟨50, "Food", "B", "02/01/24"⟩] = [] := by decide
  have e3 : List.filter (fun r : ExpenseRecord => decide (r.person = "B"))
      [⟨100, "Food", "A", "01/01/24"⟩, ⟨50, "Food", "B", "02/01/24"⟩] =
      [⟨50, "Food", "B", "02/01/24"⟩] := by decide
  norm_num [close_month, distinctPersons, personTotal, e1, e2, e3]

/-- C8: settlement on the empty record set reports "nothing registered"
(`none`) and makes no render call (zero chart renders); no report is
computed. -/
theorem close_month_empty :
    close_month [] = (none, 0) := rfl

/-- C5 (counterexample): the claim asserts that with cutoff `"01/06/24"`
the purge deletes a record dated `"31/05/24"` because that date is
lexicographically smaller. In fact `"31/05/24"` is lexicographically
GREATER than `"01/06/24"` (`'3' > '0'` at the first character), so the
delete predicate `date < cutoff` does not fire and the record is
retained. -/
theorem purge_claim_counterexample :
    lexLt "31/05/24".data "01/06/24".data = false ∧
    cleanupDelete "01/06/24" [⟨10, "Food", "A", "31/05/24"⟩] =
      [⟨10, "Food", "A", "31/05/24"⟩] := by decide

/-- C5 (amended): with cutoff `"01/06/24"` the purge retains both a record
dated `"31/05/24"` (lexicographically greater than the cutoff under the
day-first string order) and a record dated `"02/06/24"`. -/
theorem purge_example :
    cleanupDelete "01/06/24"
        [⟨10, "Food", "A", "31/05/24"⟩, ⟨20, "Food", "B", "02/06/24"⟩] =
      [⟨10, "Food", "A", "31/05/24"⟩, ⟨20, "Food", "B", "02/06/24"⟩] := by decide

/-- C9: the bulk-entry line `"50.00, Food, A, 20/05/24"` and the
step-by-step path fed the equivalent field inputs insert the same single
record `⟨50, "Food", "A", "20/05/24"⟩` into any store and both end the
conversation. -/
theorem bulk_equals_step_by_step (store : List ExpenseRecord) :
    process_list "50.00, Food, A, 20/05/24" store =
      (ConvState.END, store ++ [⟨50, "Food", "A", "20/05/24"⟩]) ∧
    runMessages ["50.00", "Food", "A", "20/05/24"]
        (ConvState.AMOUNT, emptyUD, store) =
      (ConvState.END, ⟨some 50, some "Food", some "A"⟩,
        store ++ [⟨50, "Food", "A", "20/05/24"⟩]) := by
  have hparts : (splitComma "50.00, Food, A, 20/05/24".data).map (fun cs => pyStrip ⟨cs⟩) =
      ["50.00", "Food", "A", "20/05/24"] := by decide
  have hpf : parseFloat "50.00" = some 50 := by
    rw [show parseFloat "50.00" = some ((1:ℚ) * (((50:ℕ):ℚ) + ((0:ℕ):ℚ) / 10 ^ 2)) from rfl]
    norm_num
  have hpos : ¬ (50:ℚ) ≤ 0 := by norm_num
  have hvd : validDate "20/05/24" = true := by decide
  have hsF : pyStrip "Food" = "Food" := by decide
  have hsA : pyStrip "A" = "A" := by decide
  have hsD : pyStrip "20/05/24" = "20/05/24" := by decide
  have hlF : ("Food" : String).length = 4 := by decide
  have hlA : ("A" : String).length = 1 := by decide
  constructor
  · norm_num [process_list, hparts, hpf, hpos, hvd]
  · norm_num [runMessages, step, process_amount, process_category, process_person,
      process_date, emptyUD, hpf, hpos, hvd, hsF, hsA, hsD, hlF, hlA]

end GastosBot

namespace GastosBot

/-! ## Helper lemmas for the settlement algebra -/

/-- `personTotal` over a cons: the head contributes exactly when its person
matches. -/
lemma personTotal_cons (r : ExpenseRecord) (l : List ExpenseRecord) (p : String) :
    personTotal (r :: l) p = (if r.person = p then r.amount else 0) + personTotal l p := by
  by_cases h : r.person = p <;> simp [personTotal, h]

/-- Summing `(if x = p then a else 0) + f p` over a duplicate-free list
containing `x` picks up `a` exactly once. -/
lemma sum_map_if_add (ps : List String) (x : String) (a : ℚ) (f : String → ℚ)
    (hnd : ps.Nodup) (hx : x ∈ ps) :
    (ps.map (fun p => (if x = p then a else 0) + f p)).sum = a + (ps.map f).sum := by
  induction ps with
  | nil => cases hx
  | cons h t ih =>
    rcases List.nodup_cons.mp hnd with ⟨hht, hnt⟩
    rcases List.mem_cons.mp hx with rfl | hxt
    · have hcongr : ∀ p ∈ t, ((if x = p then a else 0) + f p) = f p := by
        intro p hp
        have hne : x ≠ p := fun e => hht (e ▸ hp)
        simp [hne]
      simp [List.map_congr_left hcongr]
      ring
    · have hne : x ≠ h := fun e => hht (e ▸ hxt)
      simp [hne, ih hnt hxt]
      ring

/-- Fiberwise decomposition: the per-person totals over any duplicate-free
list of persons covering the store sum to the store's total. -/
lemma sum_personTotal (ps : List String) (l : List ExpenseRecord)
    (hnd : ps.Nodup) (hmem : ∀ r ∈ l, r.person ∈ ps) :
    (ps.map (personTotal l)).sum = (l.map ExpenseRecord.amount).sum := by
  induction l with
  | nil =>
    have h0 : personTotal [] = fun _ : String => (0:ℚ) := funext fun _ => rfl
    simp [h0]
  | cons r t ih =>
    have hmem' : ∀ x ∈ t, x.person ∈ ps := fun x hx => hmem x (List.mem_cons_of_mem _ hx)
    have hr : r.person ∈ ps := hmem r (List.mem_cons_self _ _)
    have hfun : personTotal (r :: t) =
        fun p => (if r.person = p then r.amount else 0) + personTotal t p :=
      funext fun p => personTotal_cons r t p
    rw [hfun, sum_map_if_add ps r.person r.amount (personTotal t) hnd hr, ih hmem']
    simp

/-- Every record's person is among the distinct persons. -/
lemma mem_distinctPersons (l : List ExpenseRecord) (r : ExpenseRecord) (h : r ∈ l) :
    r.person ∈ distinctPersons l := by
  induction l with
  | nil => cases h
  | cons s t ih =>
    rcases List.mem_cons.mp h with rfl | ht
    · exact List.mem_cons_self _ _
    · by_cases he : r.person = s.person
      · exact List.mem_cons.mpr (Or.inl he)
      · exact List.mem_cons.mpr (Or.inr (List.mem_filter.mpr ⟨ih ht, by simp [he]⟩))

/-- The distinct-person list has no duplicates. -/
lemma nodup_distinctPersons (l : List ExpenseRecord) : (distinctPersons l).Nodup := by
  induction l with
  | nil => exact List.nodup_nil
  | cons s t ih =>
    refine List.nodup_cons.mpr ⟨?_, List.Nodup.filter _ ih⟩
    intro hmem
    rcases List.mem_filter.mp hmem with ⟨-, hne⟩
    simp at hne

/-- Subtracting a constant under a mapped sum removes `length * constant`. -/
lemma sum_map_sub_const (ps : List String) (f : String → ℚ) (c : ℚ) :
    (ps.map (fun p => f p - c)).sum = (ps.map f).sum - ps.length * c := by
  induction ps with
  | nil => simp
  | cons h t ih =>
    simp [ih]
    ring

end GastosBot

namespace GastosBot

/-- C2: for every amount message parsing to a positive value, category and
person within the length bounds (30 and 20), and date matching `%d/%m/%y`
(fields given as the stripped message text, the value the handlers store),
feeding the step-by-step sequence AMOUNT → CATEGORY → PERSON → DATE inserts
exactly one record with exactly those field values and ends the session. -/
theorem intake_inserts_exactly_one (a c p d : String) (q : ℚ) (store : List ExpenseRecord)
    (ha : parseFloat a = some q) (hq : 0 < q)
    (hc : pyStrip c = c) (hc30 : c.length ≤ 30)
    (hp : pyStrip p = p) (hp20 : p.length ≤ 20)
    (hd : pyStrip d = d) (hdv : validDate d = true) :
    runMessages [a, c, p, d] (ConvState.AMOUNT, emptyUD, store) =
      (ConvState.END, ⟨some q, some c, some p⟩, store ++ [⟨q, c, p, d⟩]) := by
  have h1 : ¬ q ≤ 0 := not_le.mpr hq
  have h2 : ¬ c.length > 30 := not_lt.mpr hc30
  have h3 : ¬ p.length > 20 := not_lt.mpr hp20
  simp [runMessages, step, process_amount, process_category, process_person, process_date,
    emptyUD, ha, h1, hc, h2, hp, h3, hd, hdv]

/-- C2 (witness): the step-by-step sequence `"25.50"`, `"Mercado"`,
`"Joao"`, `"31/12/24"` inserts exactly that record and ends. -/
theorem intake_inserts_exactly_one_witness :
    runMessages ["25.50", "Mercado", "Joao", "31/12/24"] (ConvState.AMOUNT, emptyUD, []) =
      (ConvState.END, ⟨some (51/2), some "Mercado", some "Joao"⟩,
        [⟨51/2, "Mercado", "Joao", "31/12/24"⟩]) :=
  intake_inserts_exactly_one "25.50" "Mercado" "Joao" "31/12/24" (51/2) []
    (by rw [show parseFloat "25.50" = some ((1:ℚ) * (((25:ℕ):ℚ) + ((50:ℕ):ℚ) / 10 ^ 2)) from rfl]
        norm_num)
    (by norm_num) (by decide) (by decide) (by decide) (by decide) (by decide) (by decide)

/-- C3 (counterexample): the claim says bulk mode applies the same
validation as the step states, including category length ≤ 30, and that any
single-field failure inserts nothing. In fact `process_list` never checks
the category length: a line with a 31-character category is accepted, one
record IS inserted, and the conversation ends. -/
theorem bulk_ignores_category_length :
    (process_list "10, AAAAAAAAAAAAAAAAAAAAAAAAAAAAAAA, A, 20/05/24" []) =
      (ConvState.END, [⟨10, "AAAAAAAAAAAAAAAAAAAAAAAAAAAAAAA", "A", "20/05/24"⟩]) ∧
    ("AAAAAAAAAAAAAAAAAAAAAAAAAAAAAAA" : String).length = 31 := by
  have hparts : (splitComma "10, AAAAAAAAAAAAAAAAAAAAAAAAAAAAAAA, A, 20/05/24".data).map
      (fun cs => pyStrip ⟨cs⟩) =
      ["10", "AAAAAAAAAAAAAAAAAAAAAAAAAAAAAAA", "A", "20/05/24"] := by decide
  have hpf : parseFloat "10" = some 10 := by
    rw [show parseFloat "10" = some ((1:ℚ) * ((10:ℕ):ℚ)) from rfl]
    norm_num
  have hpos : ¬ (10:ℚ) ≤ 0 := by norm_num
  have hvd : validDate "20/05/24" = true := by decide
  refine ⟨?_, by decide⟩
  norm_num [process_list, hparts, hpf, hpos, hvd]

/-- C3 (amended): a bulk line is checked for exactly four comma-separated
fields, a parseable positive amount, and a `%d/%m/%y` date — category and
person lengths are NOT validated — and these checks are all-or-nothing:
on any failure the store is unchanged and the machine stays in `LIST`; on
success exactly one record is appended (with positive amount and valid
date) and the conversation ends. -/
theorem bulk_all_or_nothing (text : String) (store : List ExpenseRecord) :
    ((process_list text store).1 = ConvState.LIST ∧ (process_list text store).2 = store) ∨
    (∃ amt cat per d, 0 < amt ∧ validDate d = true ∧
      process_list text store = (ConvState.END, store ++ [⟨amt, cat, per, d⟩])) := by
  rcases hp : (splitComma text.data).map (fun cs => pyStrip ⟨cs⟩) with
      _ | ⟨a, _ | ⟨b, _ | ⟨c, _ | ⟨d, _ | ⟨e, rest⟩⟩⟩⟩⟩ <;>
    simp only [process_list, hp]
  · exact Or.inl ⟨trivial, trivial⟩
  · exact Or.inl ⟨trivial, trivial⟩
  · exact Or.inl ⟨trivial, trivial⟩
  · exact Or.inl ⟨trivial, trivial⟩
  · cases hf : parseFloat a with
    | none => simp [hf]
    | some amt =>
      by_cases hle : amt ≤ 0
      · simp [hf, hle]
      · by_cases hvd : validDate d
        · refine Or.inr ⟨amt, b, c, d, lt_of_not_le hle, hvd, ?_⟩
          simp [hf, hle, hvd]
        · simp [hf, hle, hvd]
  · exact Or.inl ⟨trivial, trivial⟩

/-- C4 (counterexample): the claimed store invariant includes person
length ≤ 20, but bulk entry writes a record whose person has 21
characters. -/
theorem stored_record_violates_invariant :
    (process_list "10, Food, BBBBBBBBBBBBBBBBBBBBB, 20/05/24" []) =
      (ConvState.END, [⟨10, "Food", "BBBBBBBBBBBBBBBBBBBBB", "20/05/24"⟩]) ∧
    20 < ("BBBBBBBBBBBBBBBBBBBBB" : String).length := by
  have hparts : (splitComma "10, Food, BBBBBBBBBBBBBBBBBBBBB, 20/05/24".data).map
      (fun cs => pyStrip ⟨cs⟩) = ["10", "Food", "BBBBBBBBBBBBBBBBBBBBB", "20/05/24"] := by decide
  have hpf : parseFloat "10" = some 10 := by
    rw [show parseFloat "10" = some ((1:ℚ) * ((10:ℕ):ℚ)) from rfl]
    norm_num
  have hpos : ¬ (10:ℚ) ≤ 0 := by norm_num
  have hvd : validDate "20/05/24" = true := by decide
  refine ⟨?_, by decide⟩
  norm_num [process_list, hparts, hpf, hpos, hvd]

/-- C4 (amended): every record either intake mode writes has a positive
amount and a date accepted by `%d/%m/%y` (`RecordOk`), and the step-by-step
session fields keep their bounds (`UDOk`: recorded amount positive,
category ≤ 30, person ≤ 20); non-emptiness and bulk-mode length bounds are
not enforced by the code. Stated as preservation over every dispatch. -/
theorem step_preserves_invariant (st : ConvState) (text : String) (ud : UserData)
    (store : List ExpenseRecord) (hud : UDOk ud) (hst : ∀ r ∈ store, RecordOk r) :
    UDOk (step st text ud store).2.1 ∧
    (∀ r ∈ (step st text ud store).2.2, RecordOk r) := by
  obtain ⟨hua, huc, hup⟩ := hud
  cases st
  case MODE => exact ⟨⟨hua, huc, hup⟩, hst⟩
  case AMOUNT =>
    cases h : parseFloat text with
    | none =>
      simp only [step, process_amount, h]
      exact ⟨⟨hua, huc, hup⟩, hst⟩
    | some amt =>
      by_cases hle : amt ≤ 0
      · simp only [step, process_amount, h, if_pos hle]
        exact ⟨⟨hua, huc, hup⟩, hst⟩
      · simp only [step, process_amount, h, if_neg hle]
        refine ⟨⟨?_, huc, hup⟩, hst⟩
        intro x hx
        cases hx
        exact lt_of_not_le hle
  case CATEGORY =>
    by_cases hl : (pyStrip text).length > 30
    · simp only [step, process_category, if_pos hl]
      exact ⟨⟨hua, huc, hup⟩, hst⟩
    · simp only [step, process_category, if_neg hl]
      refine ⟨⟨hua, ?_, hup⟩, hst⟩
      intro x hx
      cases hx
      exact le_of_not_lt hl
  case PERSON =>
    by_cases hl : (pyStrip text).length > 20
    · simp only [step, process_person, if_pos hl]
      exact ⟨⟨hua, huc, hup⟩, hst⟩
    · simp only [step, process_person, if_neg hl]
      refine ⟨⟨hua, huc, ?_⟩, hst⟩
      intro x hx
      cases hx
      exact le_of_not_lt hl
  case DATE =>
    by_cases hv : validDate (pyStrip text) = true
    · cases ha : ud.amount with
      | none =>
        simp only [step, process_date, if_pos hv, ha]
        exact ⟨⟨hua, huc, hup⟩, hst⟩
      | some amt =>
        cases hc : ud.category with
        | none =>
          simp only [step, process_date, if_pos hv, ha, hc]
          exact ⟨⟨hua, huc, hup⟩, hst⟩
        | some cat =>
          cases hpe : ud.person with
          | none =>
            simp only [step, process_date, if_pos hv, ha, hc, hpe]
            exact ⟨⟨hua, huc, hup⟩, hst⟩
          | some per =>
            simp only [step, process_date, if_pos hv, ha, hc, hpe]
            refine ⟨⟨hua, huc, hup⟩, ?_⟩
            intro r hr
            rcases List.mem_append.mp hr with hr | hr
            · exact hst r hr
            · rcases List.mem_singleton.mp hr with rfl
              exact ⟨hua amt ha, hv⟩
    · simp only [step, process_date, if_neg hv]
      exact ⟨⟨hua, huc, hup⟩, hst⟩
  case LIST =>
    rcases hp : (splitComma text.data).map (fun cs => pyStrip ⟨cs⟩) with
        _ | ⟨a, _ | ⟨b, _ | ⟨c, _ | ⟨d, _ | ⟨e, rest⟩⟩⟩⟩⟩ <;>
      simp only [step, process_list, hp]
    · exact ⟨⟨hua, huc, hup⟩, hst⟩
    · exact ⟨⟨hua, huc, hup⟩, hst⟩
    · exact ⟨⟨hua, huc, hup⟩, hst⟩
    · exact ⟨⟨hua, huc, hup⟩, hst⟩
    · cases hf : parseFloat a with
      | none =>
        simp only [hf]
        exact ⟨⟨hua, huc, hup⟩, hst⟩
      | some amt =>
        by_cases hle : amt ≤ 0
        · simp only [hf, if_pos hle]
          exact ⟨⟨hua, huc, hup⟩, hst⟩
        · by_cases hv : validDate d = true
          · simp only [hf, if_neg hle, if_pos hv]
            refine ⟨⟨hua, huc, hup⟩, ?_⟩
            intro r hr
            rcases List.mem_append.mp hr with hr | hr
            · exact hst r hr
            · rcases List.mem_singleton.mp hr with rfl
              exact ⟨lt_of_not_le hle, hv⟩
          · simp only [hf, if_neg hle, if_neg hv]
            exact ⟨⟨hua, huc, hup⟩, hst⟩
    · exact ⟨⟨hua, huc, hup⟩, hst⟩
  case END => exact ⟨⟨hua, huc, hup⟩, hst⟩

/-- C4 (witness): dispatching the bulk line `"50.00, Food, A, 20/05/24"`
from a fresh session and an empty store preserves both invariants. -/
theorem step_preserves_invariant_witness :
    UDOk (step ConvState.LIST "50.00, Food, A, 20/05/24" emptyUD []).2.1 ∧
    (∀ r ∈ (step ConvState.LIST "50.00, Food, A, 20/05/24" emptyUD []).2.2, RecordOk r) :=
  step_preserves_invariant ConvState.LIST "50.00, Food, A, 20/05/24" emptyUD []
    (by refine ⟨?_, ?_, ?_⟩ <;> intro x hx <;> simp [emptyUD] at hx) (by simp)

/-- C6 (counterexample): the claim says a days argument that is not a
positive integer — zero included — reports a usage error and deletes
nothing. For the argument `"0"` the code parses it, reports no usage
error, and deletes the record below the rendered cutoff. -/
theorem cleanup_old_zero_counterexample :
    cleanup_old ["0"] (fun _ => "02/01/24") [⟨100, "Food", "A", "01/01/24"⟩] = ([], false) := by
  decide

/-- C6 (amended): `cleanup_old` requires its first argument to parse as an
integer of any sign; a missing or non-integer argument reports the usage
message and deletes nothing, while any parsed integer `dias` — zero and
negatives included — performs the purge with the rendered cutoff
`now - dias days` and reports no usage error. -/
theorem cleanup_old_spec (a : String) (rest : List String) (cutoffOf : Int → String)
    (store : List ExpenseRecord) :
    (∀ dias, parseInt a = some dias →
      cleanup_old (a :: rest) cutoffOf store = (cleanupDelete (cutoffOf dias) store, false)) ∧
    (parseInt a = none → cleanup_old (a :: rest) cutoffOf store = (store, true)) ∧
    cleanup_old [] cutoffOf store = (store, true) := by
  refine ⟨?_, ?_, rfl⟩
  · intro dias hd
    simp [cleanup_old, hd]
  · intro hn
    simp [cleanup_old, hn]

/-- C7: the AMOUNT state advances (to CATEGORY) exactly when the message
parses as a positive number; on every invalid input (unparseable, zero or
negative) the machine stays in AMOUNT, the session fields are unchanged,
and no record is inserted. -/
theorem amount_state_accepts_iff (text : String) (ud : UserData) (store : List ExpenseRecord) :
    ((step ConvState.AMOUNT text ud store).1 = ConvState.CATEGORY ↔
      ∃ q, parseFloat text = some q ∧ 0 < q) ∧
    (¬ (∃ q, parseFloat text = some q ∧ 0 < q) →
      step ConvState.AMOUNT text ud store = (ConvState.AMOUNT, ud, store)) := by
  constructor
  · cases h : parseFloat text with
    | none => simp [step, process_amount, h]
    | some q =>
      by_cases hq : q ≤ 0
      · simp [step, process_amount, h, hq, not_lt.mpr hq]
      · simp [step, process_amount, h, hq, lt_of_not_le hq]
  · intro hn
    cases h : parseFloat text with
    | none => simp [step, process_amount, h]
    | some q =>
      by_cases hq : q ≤ 0
      · simp [step, process_amount, h, hq]
      · exact absurd ⟨q, h, lt_of_not_le hq⟩ hn

/-- C10: for every store on which `close_month` produces a report, the
per-person balances sum to zero: each balance is the person's total minus
`per_capita`, and `per_capita` is the grand total over the number of
distinct persons. -/
theorem balances_sum_zero (store : List ExpenseRecord) (rep : SettlementReport)
    (h : (close_month store).1 = some rep) :
    (rep.balances.map Prod.snd).sum = 0 := by
  by_cases hs : store.isEmpty
  · simp [close_month, hs] at h
  · simp only [close_month, hs, Bool.false_eq_true, if_false] at h
    rcases Option.some.inj h with rfl
    have hps : distinctPersons store ≠ [] := by
      cases store with
      | nil => simp at hs
      | cons r t => exact List.cons_ne_nil _ _
    have hlen : ((distinctPersons store).length : ℚ) ≠ 0 := by
      exact_mod_cast fun e => hps (List.length_eq_zero.mp (by exact_mod_cast e))
    have hcomp : Prod.snd ∘ (fun p => (p, personTotal store p -
        (store.map ExpenseRecord.amount).sum / ((distinctPersons store).length : ℚ))) =
        fun p => personTotal store p -
          (store.map ExpenseRecord.amount).sum / ((distinctPersons store).length : ℚ) := rfl
    simp only [List.map_map, hcomp]
    rw [sum_map_sub_const (distinctPersons store) (personTotal store)
      ((store.map ExpenseRecord.amount).sum / ((distinctPersons store).length : ℚ)),
      sum_personTotal (distinctPersons store) store (nodup_distinctPersons store)
        (fun r hr => mem_distinctPersons store r hr)]
    field_simp

/-- C10 (witness): for the one-record store `[(30, "X", "P", "01/01/24")]`
the produced report's balances sum to zero. -/
theorem balances_sum_zero_witness :
    (((⟨30, 1, 30, [("P", 0)]⟩ : SettlementReport).balances).map Prod.snd).sum = 0 :=
  balances_sum_zero [⟨30, "X", "P", "01/01/24"⟩] ⟨30, 1, 30, [("P", 0)]⟩
    (by simp [close_month,
          show distinctPersons [⟨30, "X", "P", "01/01/24"⟩] = ["P"] from by decide,
          personTotal,
          show List.filter (fun r : ExpenseRecord => decide (r.person = "P"))
            [⟨30, "X", "P", "01/01/24"⟩] = [⟨30, "X", "P", "01/01/24"⟩] from by decide])

end GastosBot
